import Mathlib

/-!
Verification of the FinsightAI crawler core against its specification.

The development shallowly embeds the URL sanitizer chain
(`finsight/crawler/sanitizer/urls.py`), the datetime normalizer chain
(`finsight/crawler/sanitizer/datetime.py`), the structured content
extractor (`finsight/crawler/core/content_extractor.py`), the scroll
exploration strategy (`finsight/crawler/core/url/scroll_search.py`) and
the deep exploration strategy (`finsight/crawler/core/url/deep_search.py`).

Python `Optional[str]` is embedded as `Option String`; a raised exception
is embedded as the `Except.error` branch of `Except`.
-/

namespace Finsight

/-! ## URL sanitizer chain (`finsight/crawler/sanitizer/urls.py`) -/

/-- Embedding of `re.sub(r'\?.*$', '', url)`: on a newline-free string
(URLs contain no newlines) this removes everything from the first
question mark onward. -/
def stripQuery (url : String) : String :=
  ⟨url.data.takeWhile (fun c => c ≠ '?')⟩

/-- Embedding of Python `url.startswith(p)`. -/
def pyStartswith (p url : String) : Bool :=
  p.data.isPrefixOf url.data

/-- The closed set of `URLSanitizerHandler` subclasses in
`finsight/crawler/sanitizer/urls.py`: `RemoveQueryParametersSanitizer`,
`PrefixSanitizer(prefix)` (the `pfx` field holds the configured prefix)
and `RemoveNoneSanitizer`. -/
inductive URLSanitizerHandler where
  | removeQueryParameters : URLSanitizerHandler
  | pfxFilter (pfx : String) : URLSanitizerHandler
  | removeNone : URLSanitizerHandler
deriving DecidableEq

/-- The `sanitize` method of each handler.  `if not url: return None`
rejects both `None` and the empty string (Python falsiness). -/
def URLSanitizerHandler.sanitize : URLSanitizerHandler → Option String → Option String
  | .removeQueryParameters, none => none
  | .removeQueryParameters, some url =>
      if url = "" then none else some (stripQuery url)
  | .pfxFilter _, none => none
  | .pfxFilter p, some url =>
      if url = "" then none
      else if pyStartswith p url then some url else none
  | .removeNone, none => none
  | .removeNone, some url => if url = "" then none else some url

/-- Embedding of `URLSanitizerChain._sanitize_url`: applies the handlers
in order to a single URL; the first handler returning `None`
short-circuits and discards the URL. -/
def sanitizeUrl : List URLSanitizerHandler → String → Option String
  | [], url => some url
  | h :: rest, url =>
      match h.sanitize (some url) with
      | none => none
      | some u => sanitizeUrl rest u

/-- Embedding of CPython `list(set(xs))` for strings: the distinct
elements of `xs`.  CPython's set iteration order is unspecified; it is
modelled here as first-occurrence order, and only membership facts are
proved about it. -/
def pySetList (xs : List String) : List String :=
  xs.foldl (fun acc x => if x ∈ acc then acc else acc ++ [x]) []

/-- Embedding of `URLSanitizerChain.sanitize(urls, unique)` (lines
98-123 of `urls.py`): collect the per-URL survivors in input order, then
`return cleaned_urls if unique else list(set(cleaned_urls))`. -/
def chainSanitize (hs : List URLSanitizerHandler) (urls : List String)
    (unique : Bool) : List String :=
  let cleaned := urls.filterMap (sanitizeUrl hs)
  if unique then cleaned else pySetList cleaned

/-! ## Datetime normalizer chain (`finsight/crawler/sanitizer/datetime.py`) -/

/-- Result of `datetime.strptime`: the components of a Python `datetime`
relevant to the embedded formats (seconds default to 0 and are omitted). -/
structure PyDatetime where
  year : Nat
  month : Nat
  day : Nat
  hour : Nat
  minute : Nat
deriving DecidableEq, Repr

/-- Python `\s` on ASCII input: space, tab, newline, carriage return,
vertical tab, form feed. -/
def pyIsSpace (c : Char) : Bool :=
  c = ' ' || c = '\t' || c = '\n' || c = '\r' || c = '\x0b' || c = '\x0c'

/-- Python `str.strip()`: remove leading and trailing whitespace. -/
def pyStrip (s : String) : String :=
  ⟨((s.data.dropWhile pyIsSpace).reverse.dropWhile pyIsSpace).reverse⟩

/-- Match the tail `GMT[+-]?\d{1,4}` of the timezone-suffix regex at the
head of `cs`, returning the remainder after the (greedy) match. -/
def matchGMTTail (cs : List Char) : Option (List Char) :=
  match cs with
  | 'G' :: 'M' :: 'T' :: rest =>
      let rest1 := match rest with
        | c :: cs1 => if c = '+' || c = '-' then cs1 else rest
        | [] => rest
      let ds := (rest1.takeWhile Char.isDigit).take 4
      if ds.isEmpty then none else some (rest1.drop ds.length)
  | _ => none

/-- Scanner for `re.sub(r"\sGMT[+-]?\d{1,4}", "", value)`: at each
position, if a whitespace character begins a match of the pattern, drop
the whole match and continue after it; otherwise keep the character.
The fuel argument is bounded by the input length (each step consumes at
least one character), so the top-level wrapper below never exhausts it. -/
def gmtSubAux : Nat → List Char → List Char
  | 0, cs => cs
  | _ + 1, [] => []
  | fuel + 1, c :: cs =>
      if pyIsSpace c then
        match matchGMTTail cs with
        | some rest => gmtSubAux fuel rest
        | none => c :: gmtSubAux fuel cs
      else c :: gmtSubAux fuel cs

/-- Embedding of `re.sub(r"\sGMT[+-]?\d{1,4}", "", value)` (line 33 of
`datetime.py`). -/
def gmtSub (value : String) : String :=
  ⟨gmtSubAux value.data.length value.data⟩

/-- Case-insensitive character match (Python `strptime` compiles its
format regex with `IGNORECASE`). -/
def matchCharCI (k : Char) (cs : List Char) : Option (List Char) :=
  match cs with
  | c :: rest => if c.toLower = k.toLower then some rest else none
  | [] => none

/-- Exact single-character match. -/
def matchCharLit (k : Char) (cs : List Char) : Option (List Char) :=
  match cs with
  | c :: rest => if c = k then some rest else none
  | [] => none

/-- Whitespace in a `strptime` format matches `\s+`: at least one
whitespace character, greedily extended. -/
def matchWs (cs : List Char) : Option (List Char) :=
  match cs with
  | c :: rest => if pyIsSpace c then some (rest.dropWhile pyIsSpace) else none
  | [] => none

/-- Case-insensitive keyword prefix match. -/
def matchKeyword : List Char → List Char → Option (List Char)
  | [], cs => some cs
  | _ :: _, [] => none
  | k :: ks, c :: cs => if c.toLower = k.toLower then matchKeyword ks cs else none

/-- Regex alternation over a keyword list: the first keyword matching a
prefix of `cs` wins; returns its index and the remainder. -/
def matchOneOf (keys : List String) (cs : List Char) : Option (Nat × List Char) :=
  match keys with
  | [] => none
  | k :: ks =>
      match matchKeyword k.data cs with
      | some rest => some (0, rest)
      | none => (matchOneOf ks cs).map (fun p => (p.1 + 1, p.2))

/-- The `%a` alternation: abbreviated weekday names. -/
def weekdayAbbrs : List String := ["Mon", "Tue", "Wed", "Thu", "Fri", "Sat", "Sun"]

/-- The `%B` alternation: full month names, index + 1 is the month number. -/
def monthFullNames : List String :=
  ["January", "February", "March", "April", "May", "June", "July",
   "August", "September", "October", "November", "December"]

/-- The `%p` alternation. -/
def ampmNames : List String := ["AM", "PM"]

/-- Numeric value of a digit character. -/
def digitVal (c : Char) : Nat := c.toNat - '0'.toNat

/-- The `%d` directive, regex `(3[01]|[12]\d|0[1-9]|[1-9])`: a 1- or
2-digit day in 1..31, longest alternative first. -/
def matchDay (cs : List Char) : Option (Nat × List Char) :=
  match cs with
  | c1 :: c2 :: rest =>
      if c1 = '3' && (c2 = '0' || c2 = '1') then some (30 + digitVal c2, rest)
      else if (c1 = '1' || c1 = '2') && c2.isDigit then
        some (10 * digitVal c1 + digitVal c2, rest)
      else if c1 = '0' && c2.isDigit && c2 ≠ '0' then some (digitVal c2, rest)
      else if c1.isDigit && c1 ≠ '0' then some (digitVal c1, c2 :: rest)
      else none
  | [c1] => if c1.isDigit && c1 ≠ '0' then some (digitVal c1, []) else none
  | [] => none

/-- The `%Y` directive, regex `\d\d\d\d`: exactly four digits. -/
def matchYear4 (cs : List Char) : Option (Nat × List Char) :=
  match cs with
  | c1 :: c2 :: c3 :: c4 :: rest =>
      if c1.isDigit && c2.isDigit && c3.isDigit && c4.isDigit then
        some (1000 * digitVal c1 + 100 * digitVal c2 + 10 * digitVal c3 + digitVal c4, rest)
      else none
  | _ => none

/-- The `%I` directive, regex `(1[0-2]|0[1-9]|[1-9])`: a 12-hour-clock
hour in 1..12. -/
def matchHour12 (cs : List Char) : Option (Nat × List Char) :=
  match cs with
  | c1 :: c2 :: rest =>
      if c1 = '1' && (c2 = '0' || c2 = '1' || c2 = '2') then some (10 + digitVal c2, rest)
      else if c1 = '0' && c2.isDigit && c2 ≠ '0' then some (digitVal c2, rest)
      else if c1.isDigit && c1 ≠ '0' then some (digitVal c1, c2 :: rest)
      else none
  | [c1] => if c1.isDigit && c1 ≠ '0' then some (digitVal c1, []) else none
  | [] => none

/-- The `%M` directive, regex `([0-5]\d|\d)`: a 1- or 2-digit minute. -/
def matchMinute (cs : List Char) : Option (Nat × List Char) :=
  match cs with
  | c1 :: c2 :: rest =>
      if c1.isDigit && c1 ≤ '5' && c2.isDigit then
        some (10 * digitVal c1 + digitVal c2, rest)
      else if c1.isDigit then some (digitVal c1, c2 :: rest)
      else none
  | [c1] => if c1.isDigit then some (digitVal c1, []) else none
  | [] => none

/-- `strptime`'s 12-hour to 24-hour conversion: index 0 is AM
(12 becomes 0), index 1 is PM (everything but 12 gains 12). -/
def hour24 (h12 pIdx : Nat) : Nat :=
  if pIdx = 0 then (if h12 = 12 then 0 else h12)
  else (if h12 = 12 then 12 else h12 + 12)

/-- Gregorian leap year, as validated by `datetime.__new__`. -/
def isLeapYear (y : Nat) : Bool :=
  (y % 4 = 0 && y % 100 ≠ 0) || y % 400 = 0

/-- Number of days in a month, as validated by `datetime.__new__`. -/
def daysInMonth (y m : Nat) : Nat :=
  if m = 2 then (if isLeapYear y then 29 else 28)
  else if m = 4 || m = 6 || m = 9 || m = 11 then 30
  else 31

/-- The `"%a, %B %d, "` and `"%Y"` directives of the format
`"%a, %B %d, %Y at %I:%M %p"`: weekday abbreviation, comma, month full
name, day, comma, 4-digit year.  Yields (year, month, day, remainder). -/
def parseDatePart (cs : List Char) : Option (Nat × Nat × Nat × List Char) :=
  match matchOneOf weekdayAbbrs cs with
  | none => none
  | some (_, cs) =>
  match matchCharLit ',' cs with
  | none => none
  | some cs =>
  match matchWs cs with
  | none => none
  | some cs =>
  match matchOneOf monthFullNames cs with
  | none => none
  | some (bIdx, cs) =>
  match matchWs cs with
  | none => none
  | some cs =>
  match matchDay cs with
  | none => none
  | some (day, cs) =>
  match matchCharLit ',' cs with
  | none => none
  | some cs =>
  match matchWs cs with
  | none => none
  | some cs =>
  match matchYear4 cs with
  | none => none
  | some (year, cs) => some (year, bIdx + 1, day, cs)

/-- The `" at %I:%M %p"` tail of the format: the literal `at`, a
12-hour time and the AM/PM marker.  Yields (hour, minute, remainder)
with the hour already converted to the 24-hour clock. -/
def parseTimePart (cs : List Char) : Option (Nat × Nat × List Char) :=
  match matchWs cs with
  | none => none
  | some cs =>
  match matchCharCI 'a' cs with
  | none => none
  | some cs =>
  match matchCharCI 't' cs with
  | none => none
  | some cs =>
  match matchWs cs with
  | none => none
  | some cs =>
  match matchHour12 cs with
  | none => none
  | some (h12, cs) =>
  match matchCharLit ':' cs with
  | none => none
  | some cs =>
  match matchMinute cs with
  | none => none
  | some (minute, cs) =>
  match matchWs cs with
  | none => none
  | some cs =>
  match matchOneOf ampmNames cs with
  | none => none
  | some (pIdx, cs) => some (hour24 h12 pIdx, minute, cs)

/-- The directive-by-directive match of
`strptime(value, "%a, %B %d, %Y at %I:%M %p")` (line 34 of
`datetime.py`), requiring no unconverted data to remain.  Yields
(year, month, day, hour, minute). -/
def parseFullMonthFormat (cs : List Char) : Option (Nat × Nat × Nat × Nat × Nat) :=
  match parseDatePart cs with
  | none => none
  | some (year, month, day, cs) =>
  match parseTimePart cs with
  | none => none
  | some (hh, mm, cs) =>
  if cs.isEmpty then some (year, month, day, hh, mm) else none

/-- Embedding of `FullMonthDatetimeSanitizer.sanitize` (lines 23-35 of
`datetime.py`): strip the `GMT±N` suffix, strip surrounding whitespace,
then `strptime` with format `"%a, %B %d, %Y at %I:%M %p"`.  A raised
`ValueError` is the `Except.error` branch; the constructed `datetime`
validates the day against the month length and the year range. -/
def fullMonthSanitize (value : String) : Except String PyDatetime :=
  let v := pyStrip (gmtSub value)
  match parseFullMonthFormat v.data with
  | none => .error ("time data does not match format")
  | some (y, m, d, hh, mm) =>
      if 1 ≤ y && d ≤ daysInMonth y m then .ok ⟨y, m, d, hh, mm⟩
      else .error ("day is out of range for month")

/-- Embedding of `ChainedDatetimeSanitizer.sanitize` (lines 82-111 of
`datetime.py`): strategies are Python callables raising on failure,
embedded as functions into `Except`.  Each strategy is tried in order;
the first success is returned; when all fail a `ValueError` with the
message below is raised. -/
def chainedSanitize (strats : List (String → Except String PyDatetime))
    (value : String) : Except String PyDatetime :=
  match strats with
  | [] => .error ("No sanitizer could process the value: " ++ value)
  | s :: rest =>
      match s value with
      | .ok d => .ok d
      | .error _ => chainedSanitize rest value

/-! ## Structured content extractor (`finsight/crawler/core/content_extractor.py`) -/

/-- A JSON object record, modelled as an ordered association list from
field names to values (the claims only concern the string-valued `url`
field, so values are modelled as strings). -/
abbrev Record := List (String × String)

/-- Python dict assignment `r[k] = v`: replace the value at an existing
key in place, or append a new key at the end. -/
def setField (r : Record) (k v : String) : Record :=
  if r.any (fun p => p.1 = k) then r.map (fun p => if p.1 = k then (k, v) else p)
  else r ++ [(k, v)]

/-- Python dict lookup `r.get(k)`: the first binding of `k`, if any. -/
def getField (r : Record) (k : String) : Option String :=
  (r.find? (fun p => p.1 = k)).map Prod.snd

/-- The `extracted_content` of a crawl result, modelled by the outcome
of `json.loads` on it: either content that is not valid JSON (`loads`
raises `JSONDecodeError`) or a JSON array of records. -/
inductive Payload where
  | invalid
  | jarr (records : List Record)
deriving DecidableEq

/-- The fields of a `crawler.arun` result read by
`StructuredExtractor.extract`: the success flag, the result URL and the
extracted content. -/
structure FetchResult where
  success : Bool
  url : String
  extracted_content : Payload
deriving DecidableEq

/-- The `for url in urls` loop of `StructuredExtractor.extract` (lines
52-74 of `content_extractor.py`), with the per-URL crawl results
supplied as input.  A successful result has `json.loads` applied to its
content (raising aborts `extract`), its first record stamped with the
result URL via `json_data[0]["url"] = result.url` (an empty array makes
this raise `IndexError`), and all records appended to the accumulator;
an unsuccessful result is skipped. -/
def extractLoop : List Record → List FetchResult → Except String (List Record)
  | acc, [] => .ok acc
  | acc, r :: rest =>
      if r.success then
        match r.extracted_content with
        | .invalid => .error ("json.decoder.JSONDecodeError")
        | .jarr [] => .error ("IndexError: list index out of range")
        | .jarr (x :: xs) =>
            extractLoop (acc ++ (setField x ("url") r.url :: xs)) rest
      else extractLoop acc rest

/-- Embedding of `StructuredExtractor.extract` over the sequence of
fetch results for its URL list. -/
def extract (results : List FetchResult) : Except String (List Record) :=
  extractLoop [] results

/-! ## Scroll exploration (`finsight/crawler/core/url/scroll_search.py`) -/

/-- A link dict in `result.links["internal"]`, modelled by its
`link.get("href")` value: `none` when the `href` key is absent. -/
abbrev LinkEntry := Option String

/-- The fields of a scroll-action crawl result read by the strategy:
the success flag and `result.links.get("internal", [])` (a missing
`internal` key is modelled by the empty list). -/
structure ScrollResult where
  success : Bool
  internalLinks : List LinkEntry
deriving DecidableEq

/-- Embedding of `ScrollSearchStrategy._is_successful_result`:
`result is not None and result.success`. -/
def isSuccessfulResult : Option ScrollResult → Bool
  | none => false
  | some r => r.success

/-- Embedding of `ScrollSearchStrategy._extract_valid_internal_links`
(lines 129-142): `[link["href"] for link in links if link.get("href")]`
keeps the hrefs that are present and non-empty (Python truthiness). -/
def extractValidInternalLinks (r : ScrollResult) : List String :=
  r.internalLinks.filterMap (fun h =>
    match h with
    | some s => if s = "" then none else some s
    | none => none)

/-- One iteration of the scroll loop, as seen from outside: the crawl
result the scroll action produced, and the wall-clock time `dur` the
iteration consumed (the scroll action plus the `scroll_interval` sleep;
real time cannot be embedded, so each tick carries its duration). -/
structure ScrollTick where
  result : Option ScrollResult
  dur : Nat

/-- The `while (time.time() - start_time) < self.duration_seconds` loop
of `ScrollSearchStrategy.explore` (lines 54-71): stop once the elapsed
time reaches `duration`; otherwise harvest the internal links of a
successful tick (an unsuccessful tick harvests nothing), count the
unconditional `_post_scroll_wait` sleep, advance the clock by the tick
duration, and continue.  Returns the collected links and the number of
sleeps performed.  (An exhausted tick list also stops the loop; the
theorems only examine schedules within the supplied ticks.) -/
def exploreScrollLoop (duration : Nat) :
    Nat → List String → Nat → List ScrollTick → List String × Nat
  | elapsed, acc, sleeps, ticks =>
      if duration ≤ elapsed then (acc, sleeps)
      else
        match ticks with
        | [] => (acc, sleeps)
        | t :: rest =>
            let acc' := match t.result with
              | some r => if r.success then acc ++ extractValidInternalLinks r else acc
              | none => acc
            exploreScrollLoop duration (elapsed + t.dur) acc' (sleeps + 1) rest

/-- Embedding of `ScrollSearchStrategy.explore` over a schedule of
ticks: starts with elapsed time 0, an empty accumulator and no sleeps. -/
def exploreScroll (duration : Nat) (ticks : List ScrollTick) : List String × Nat :=
  exploreScrollLoop duration 0 [] 0 ticks

/-- The prefix of the tick schedule the loop actually executes: ticks
are consumed while the elapsed time is still below `duration`. -/
def processedTicks (duration elapsed : Nat) : List ScrollTick → List ScrollTick
  | [] => []
  | t :: rest =>
      if duration ≤ elapsed then []
      else t :: processedTicks duration (elapsed + t.dur) rest

/-- The links one tick contributes: the valid internal links of a
successful result, nothing otherwise. -/
def tickHarvest (t : ScrollTick) : List String :=
  match t.result with
  | some r => if r.success then extractValidInternalLinks r else []
  | none => []

/-! ## Deep exploration (`finsight/crawler/core/url/deep_search.py`) -/

/-- Modelled from the spec: `DeepSearchStrategy.explore` delegates the
traversal to the external `crawl4ai` `BestFirstCrawlingStrategy`, whose
code is not part of this repository; the spec describes it as a
best-first traversal from the seed in which every candidate must pass
the domain/pattern filter chain before being enqueued, children are
enqueued one hop deeper than their parent and only while the parent is
strictly below `max_depth`, and expansion halts once `max_pages` pages
have been visited or the frontier is exhausted.  The relevance scorer
only permutes the frontier, and the claimed bounds are independent of
that order, so the frontier is processed head-first here; `fuel` bounds
the iteration count (cyclic graphs), and `adj` gives the links of a
page.  Visited pages are recorded with the hop count of the traversal
path that reached them. -/
def deepLoop (adj : String → List String) (flt : String → Bool)
    (maxDepth maxPages : Nat) :
    Nat → List (String × Nat) → List (String × Nat) → List (String × Nat)
  | 0, _, visited => visited
  | _ + 1, [], visited => visited
  | fuel + 1, (u, d) :: rest, visited =>
      if maxPages ≤ visited.length then visited
      else
        let children :=
          if d < maxDepth then ((adj u).filter flt).map (fun v => (v, d + 1))
          else []
        deepLoop adj flt maxDepth maxPages fuel (rest ++ children) (visited ++ [(u, d)])

/-- Modelled from the spec: the URL sequence `DeepSearchStrategy.explore`
returns — the visited pages of the bounded best-first traversal started
at the seed (depth 0). -/
def deepExplore (adj : String → List String) (flt : String → Bool)
    (maxDepth maxPages : Nat) (seed : String) (fuel : Nat) : List String :=
  (deepLoop adj flt maxDepth maxPages fuel [(seed, 0)] []).map Prod.fst

/-! ## Lemmas about the URL sanitizer chain -/

theorem mem_foldl_insertNew (u : String) (xs acc : List String) :
    u ∈ xs.foldl (fun acc x => if x ∈ acc then acc else acc ++ [x]) acc ↔
      u ∈ acc ∨ u ∈ xs := by
  induction xs generalizing acc with
  | nil => simp
  | cons x xs ih =>
      simp only [List.foldl_cons, ih, List.mem_cons]
      by_cases hx : x ∈ acc
      · simp only [if_pos hx]
        constructor
        · rintro (h | h)
          · exact Or.inl h
          · exact Or.inr (Or.inr h)
        · rintro (h | h | h)
          · exact Or.inl h
          · exact Or.inl (h ▸ hx)
          · exact Or.inr h
      · simp only [if_neg hx, List.mem_append, List.mem_singleton]
        tauto

theorem mem_pySetList (u : String) (xs : List String) :
    u ∈ pySetList xs ↔ u ∈ xs := by
  unfold pySetList
  rw [mem_foldl_insertNew]
  simp

theorem mem_chainSanitize (hs : List URLSanitizerHandler) (urls : List String)
    (uq : Bool) (u : String) :
    u ∈ chainSanitize hs urls uq ↔ ∃ v ∈ urls, sanitizeUrl hs v = some u := by
  cases uq <;> simp [chainSanitize, mem_pySetList, List.mem_filterMap]

theorem pfxTakeWhileOfAll {p t : List Char} (pred : Char → Bool)
    (hall : ∀ c ∈ p, pred c = true) (hp : p <+: t) :
    p <+: t.takeWhile pred := by
  induction p generalizing t with
  | nil => exact List.nil_prefix
  | cons c cs ih =>
      obtain ⟨s, rfl⟩ := hp
      have hc : pred c = true := hall c (List.mem_cons_self c cs)
      simp only [List.cons_append, List.takeWhile_cons, hc, if_true]
      have := ih (fun d hd => hall d (List.mem_cons_of_mem c hd)) (List.prefix_append cs s)
      exact (List.prefix_cons_inj c).mpr this

theorem handler_preserves_pfx (h : URLSanitizerHandler) {p u v : String}
    (hp : '?' ∉ p.data) (hu : p.data <+: u.data)
    (hv : h.sanitize (some u) = some v) : p.data <+: v.data := by
  cases h with
  | removeQueryParameters =>
      simp only [URLSanitizerHandler.sanitize] at hv
      by_cases he : u = ""
      · simp [he] at hv
      · simp only [if_neg he, Option.some.injEq] at hv
        subst hv
        exact pfxTakeWhileOfAll _
          (fun c hc => by simpa using fun hcq : c = '?' => hp (hcq ▸ hc)) hu
  | pfxFilter q =>
      simp only [URLSanitizerHandler.sanitize] at hv
      by_cases he : u = ""
      · simp [he] at hv
      · simp only [if_neg he] at hv
        by_cases hq : pyStartswith q u
        · simp only [if_pos hq, Option.some.injEq] at hv
          exact hv ▸ hu
        · simp [hq] at hv
  | removeNone =>
      simp only [URLSanitizerHandler.sanitize] at hv
      by_cases he : u = ""
      · simp [he] at hv
      · simp only [if_neg he, Option.some.injEq] at hv
        exact hv ▸ hu

theorem sanitizeUrl_preserves_pfx (hs : List URLSanitizerHandler) {p u v : String}
    (hp : '?' ∉ p.data) (hu : p.data <+: u.data)
    (hv : sanitizeUrl hs u = some v) : p.data <+: v.data := by
  induction hs generalizing u with
  | nil =>
      simp only [sanitizeUrl, Option.some.injEq] at hv
      exact hv ▸ hu
  | cons h rest ih =>
      simp only [sanitizeUrl] at hv
      cases hw : h.sanitize (some u) with
      | none => rw [hw] at hv; exact absurd hv (by simp)
      | some w =>
          rw [hw] at hv
          exact ih (handler_preserves_pfx h hp hu hw) hv

theorem sanitizeUrl_pfx_mem (hs : List URLSanitizerHandler) {p v u : String}
    (hmem : URLSanitizerHandler.pfxFilter p ∈ hs) (hp : '?' ∉ p.data)
    (hv : sanitizeUrl hs v = some u) : p.data <+: u.data := by
  induction hs generalizing v with
  | nil => cases hmem
  | cons h rest ih =>
      simp only [sanitizeUrl] at hv
      cases hw : h.sanitize (some v) with
      | none => rw [hw] at hv; exact absurd hv (by simp)
      | some w =>
          rw [hw] at hv
          rcases List.mem_cons.mp hmem with hh | hh
          · subst hh
            simp only [URLSanitizerHandler.sanitize] at hw
            by_cases he : v = ""
            · simp [he] at hw
            · simp only [if_neg he] at hw
              by_cases hq : pyStartswith p v
              · simp only [if_pos hq, Option.some.injEq] at hw
                subst hw
                simp only [pyStartswith] at hq
                exact sanitizeUrl_preserves_pfx rest hp
                  ( List.isPrefixOf_iff_prefix.mp hq) hv
              · simp [hq] at hw
          · exact ih hh hv

theorem sanitizeUrl_removeNone_last (hs : List URLSanitizerHandler) {v u : String}
    (hv : sanitizeUrl (hs ++ [URLSanitizerHandler.removeNone]) v = some u) :
    u ≠ "" := by
  induction hs generalizing v with
  | nil =>
      simp only [List.nil_append, sanitizeUrl, URLSanitizerHandler.sanitize] at hv
      by_cases he : v = ""
      · simp [he] at hv
      · simp only [if_neg he] at hv
        simp only [sanitizeUrl, Option.some.injEq] at hv
        exact hv ▸ he
  | cons h rest ih =>
      simp only [List.cons_append, sanitizeUrl] at hv
      cases hw : h.sanitize (some v) with
      | none => rw [hw] at hv; exact absurd hv (by simp)
      | some w => rw [hw] at hv; exact ih hv

/-! ## Claim theorems for the URL sanitizer chain -/

/-- Claim C1: the spec and the method's own docstring state that
`sanitize(urls, unique=True)` removes duplicates and that the flag set
to false preserves multiplicity and insertion order; the code at line
123 of `urls.py` (`return cleaned_urls if unique else
list(set(cleaned_urls))`) does exactly the opposite.  Evaluating the
embedding at the failing input `["u1", "u1", "u2"]`: with the flag true
the duplicates survive in insertion order, and with the flag false the
result is deduplicated. -/
theorem chainSanitize_unique_flag_inverted :
    chainSanitize [] ["u1", "u1", "u2"] true = ["u1", "u1", "u2"] ∧
    chainSanitize [] ["u1", "u1", "u2"] false = ["u1", "u2"] := by
  exact ⟨rfl, by decide⟩

/-- Claim C5: the chain applies its stages in order, each stage
receiving the previous stage's output, and the first stage yielding
`None` discards the URL entirely.  Concretely, the chain
`[RemoveQueryParametersSanitizer, PrefixSanitizer("https://a.com/news/")]`
maps `"https://a.com/news/x?y=1"` to `"https://a.com/news/x"` and
discards `"https://b.com/x"`; in general a stage returning `None`
short-circuits the rest of the chain, and a URL whose sanitization
yields `None` contributes nothing to the output of `sanitize`. -/
theorem sanitizeUrl_order_and_short_circuit :
    sanitizeUrl [.removeQueryParameters, .pfxFilter ("https://a.com/news/")]
      ("https://a.com/news/x?y=1") = some ("https://a.com/news/x") ∧
    sanitizeUrl [.removeQueryParameters, .pfxFilter ("https://a.com/news/")]
      ("https://b.com/x") = none ∧
    (∀ (h : URLSanitizerHandler) (rest : List URLSanitizerHandler) (url : String),
      h.sanitize (some url) = none → sanitizeUrl (h :: rest) url = none) ∧
    (∀ (hs : List URLSanitizerHandler) (url : String) (urls : List String) (uq : Bool),
      sanitizeUrl hs url = none →
      chainSanitize hs (url :: urls) uq = chainSanitize hs urls uq) := by
  refine ⟨by decide, by decide, ?_, ?_⟩
  · intro h rest url hnone
    simp only [sanitizeUrl, hnone]
  · intro hs url urls uq hnone
    unfold chainSanitize
    simp only [List.filterMap_cons, hnone]

/-- Witness for the short-circuit parts of the C5 theorem, instantiated
at the prefix filter for `"x"` applied to `"y"`. -/
theorem sanitizeUrl_order_and_short_circuit_witness :
    sanitizeUrl [URLSanitizerHandler.pfxFilter ("x")] ("y") = none ∧
    chainSanitize [URLSanitizerHandler.pfxFilter ("x")] ["y"] true =
      chainSanitize [URLSanitizerHandler.pfxFilter ("x")] [] true := by
  exact ⟨sanitizeUrl_order_and_short_circuit.2.2.1 (.pfxFilter ("x")) [] ("y") (by decide),
    sanitizeUrl_order_and_short_circuit.2.2.2 [.pfxFilter ("x")] ("y") [] true (by decide)⟩

/-- Claim C4 counterexample: the claim that for every sanitizer chain
the output of `sanitize` contains no empty strings and no URL rejected
by a contained prefix filter is false on the code.  Query-stripping
`"?x=1"` yields the surviving empty string (only `None` is filtered by
the chain loop), and a query-strip stage placed after a prefix filter
whose prefix contains a question mark can produce an output URL the
prefix filter rejects. -/
theorem chainSanitize_empty_and_rejected_counterexample :
    chainSanitize [.removeQueryParameters] ["?x=1"] true = [""] ∧
    chainSanitize [.pfxFilter ("a?b"), .removeQueryParameters] ["a?b"] true = ["a"] ∧
    pyStartswith ("a?b") ("a") = false := by
  refine ⟨by decide, by decide, by decide⟩

/-- Claim C4 as amended: every element of the output of `sanitize`
arises from a URL the whole chain sanitized successfully (so no `None`
survives); when the chain contains a prefix-filter stage whose prefix
contains no question mark, every output URL starts with that prefix;
and when the chain's last stage is the None-filter, no output URL is
empty. -/
theorem chainSanitize_output_guarantees :
    (∀ (hs : List URLSanitizerHandler) (urls : List String) (uq : Bool) (u : String),
      u ∈ chainSanitize hs urls uq → ∃ v ∈ urls, sanitizeUrl hs v = some u) ∧
    (∀ (hs : List URLSanitizerHandler) (p : String) (urls : List String) (uq : Bool)
      (u : String), URLSanitizerHandler.pfxFilter p ∈ hs → '?' ∉ p.data →
      u ∈ chainSanitize hs urls uq → p.data <+: u.data) ∧
    (∀ (hs : List URLSanitizerHandler) (urls : List String) (uq : Bool) (u : String),
      u ∈ chainSanitize (hs ++ [URLSanitizerHandler.removeNone]) urls uq → u ≠ "") := by
  refine ⟨?_, ?_, ?_⟩
  · intro hs urls uq u hu
    exact (mem_chainSanitize hs urls uq u).mp hu
  · intro hs p urls uq u hmem hp hu
    obtain ⟨v, _, hv⟩ := (mem_chainSanitize hs urls uq u).mp hu
    exact sanitizeUrl_pfx_mem hs hmem hp hv
  · intro hs urls uq u hu
    obtain ⟨v, _, hv⟩ := (mem_chainSanitize _ urls uq u).mp hu
    exact sanitizeUrl_removeNone_last hs hv

/-- Witness for the C4 amended theorem, instantiated at concrete chains
and the input list `["ab"]`. -/
theorem chainSanitize_output_guarantees_witness :
    (∃ v ∈ (["ab"] : List String), sanitizeUrl [] v = some ("ab")) ∧
    ("a").data <+: ("ab").data ∧
    ("ab") ≠ "" := by
  refine ⟨?_, ?_, ?_⟩
  · exact chainSanitize_output_guarantees.1 [] ["ab"] true ("ab") (by decide)
  · exact chainSanitize_output_guarantees.2.1 [.pfxFilter ("a")] ("a") ["ab"] true
      ("ab") (by decide) (by decide) (by decide)
  · exact chainSanitize_output_guarantees.2.2 [] ["ab"] true ("ab") (by decide)

/-! ## Claim theorems for the datetime normalizer chain -/

/-- Claim C6: `ChainedDatetimeSanitizer.sanitize` tries its strategies
strictly in the configured order and returns the result of the first
strategy that succeeds (all strategies before it having failed), and
when every strategy fails it raises the `ValueError` carrying the
`No sanitizer could process the value` message instead of returning a
timestamp. -/
theorem chainedSanitize_first_success_else_error :
    (∀ (pre post : List (String → Except String PyDatetime))
      (s : String → Except String PyDatetime) (value : String) (d : PyDatetime),
      (∀ t ∈ pre, ∃ e, t value = .error e) → s value = .ok d →
      chainedSanitize (pre ++ s :: post) value = .ok d) ∧
    (∀ (strats : List (String → Except String PyDatetime)) (value : String),
      (∀ s ∈ strats, ∃ e, s value = .error e) →
      chainedSanitize strats value =
        .error ("No sanitizer could process the value: " ++ value)) := by
  constructor
  · intro pre post s value d hpre hs
    induction pre with
    | nil => simp [chainedSanitize, hs]
    | cons t pre ih =>
        obtain ⟨e, he⟩ := hpre t (List.mem_cons_self t pre)
        simp only [List.cons_append, chainedSanitize, he]
        exact ih (fun q hq => hpre q (List.mem_cons_of_mem t hq))
  · intro strats value hall
    induction strats with
    | nil => rfl
    | cons s rest ih =>
        obtain ⟨e, he⟩ := hall s (List.mem_cons_self s rest)
        simp only [chainedSanitize, he]
        exact ih (fun q hq => hall q (List.mem_cons_of_mem s hq))

/-- Witness for the C6 theorem: with the full-month strategy first and
an always-succeeding strategy second, the chain on an unparseable input
returns the second strategy's result; with the full-month strategy
alone, the same input raises the `UnparseableDate` failure. -/
theorem chainedSanitize_first_success_else_error_witness :
    chainedSanitize [fullMonthSanitize, fun _ => Except.ok ⟨2025, 1, 1, 0, 0⟩]
      ("garbage") = .ok ⟨2025, 1, 1, 0, 0⟩ ∧
    chainedSanitize [fullMonthSanitize] ("garbage") =
      .error ("No sanitizer could process the value: " ++ ("garbage")) := by
  constructor
  · exact chainedSanitize_first_success_else_error.1 [fullMonthSanitize] []
      (fun _ => Except.ok ⟨2025, 1, 1, 0, 0⟩) ("garbage") ⟨2025, 1, 1, 0, 0⟩
      (by intro t ht
          rw [List.mem_singleton] at ht
          exact ⟨("time data does not match format"), ht ▸ rfl⟩)
      rfl
  · exact chainedSanitize_first_success_else_error.2 [fullMonthSanitize] ("garbage")
      (by intro t ht
          rw [List.mem_singleton] at ht
          exact ⟨("time data does not match format"), ht ▸ rfl⟩)

/-- Claim C7: the full-month strategy normalizes
`"Sat, April 19, 2025 at 9:30 AM GMT-4"` to the timestamp
2025-04-19 09:30, the `GMT-4` suffix being removed by the
`re.sub` before the string reaches `strptime`. -/
theorem fullMonthSanitize_april19_example :
    fullMonthSanitize ("Sat, April 19, 2025 at 9:30 AM GMT-4") =
      .ok ⟨2025, 4, 19, 9, 30⟩ ∧
    pyStrip (gmtSub ("Sat, April 19, 2025 at 9:30 AM GMT-4")) =
      ("Sat, April 19, 2025 at 9:30 AM") := by
  exact ⟨rfl, rfl⟩

/-! ## Lemmas about the structured content extractor -/

theorem extractLoop_skip_failure (r : FetchResult) (hr : r.success = false) :
    ∀ (pre post : List FetchResult) (acc : List Record),
      extractLoop acc (pre ++ r :: post) = extractLoop acc (pre ++ post) := by
  intro pre
  induction pre with
  | nil =>
      intro post acc
      simp only [List.nil_append, extractLoop, hr]
      simp
  | cons q pre ih =>
      intro post acc
      simp only [List.cons_append, extractLoop]
      by_cases hq : q.success
      · simp only [if_pos hq]
        cases hc : q.extracted_content with
        | invalid => rfl
        | jarr rs =>
            cases rs with
            | nil => rfl
            | cons x xs => exact ih post _
      · simp only [if_neg hq]
        exact ih post acc

theorem extractLoop_invalid_errors (results : List FetchResult) :
    ∀ (acc : List Record) (r : FetchResult), r ∈ results → r.success = true →
      r.extracted_content = .invalid → ∃ e, extractLoop acc results = .error e := by
  induction results with
  | nil => intro acc r hr; cases hr
  | cons q rest ih =>
      intro acc r hr hsucc hinv
      rcases List.mem_cons.mp hr with hh | hh
      · subst hh
        simp only [extractLoop, hsucc, hinv]
        exact ⟨("json.decoder.JSONDecodeError"), by simp⟩
      · simp only [extractLoop]
        by_cases hq : q.success
        · simp only [if_pos hq]
          cases hc : q.extracted_content with
          | invalid => exact ⟨("json.decoder.JSONDecodeError"), rfl⟩
          | jarr rs =>
              cases rs with
              | nil => exact ⟨("IndexError: list index out of range"), rfl⟩
              | cons x xs => exact ih _ r hh hsucc hinv
        · simp only [if_neg hq]
          exact ih acc r hh hsucc hinv

theorem extractLoop_append_success (url : String) (x : Record) (xs : List Record) :
    ∀ (results : List FetchResult) (acc : List Record) (out : List Record),
      extractLoop acc results = .ok out →
      extractLoop acc (results ++ [⟨true, url, .jarr (x :: xs)⟩]) =
        .ok (out ++ (setField x ("url") url :: xs)) := by
  intro results
  induction results with
  | nil =>
      intro acc out hok
      simp only [extractLoop] at hok
      cases hok
      simp [extractLoop]
  | cons q rest ih =>
      intro acc out hok
      simp only [extractLoop] at hok ⊢
      by_cases hq : q.success
      · simp only [if_pos hq] at hok ⊢
        cases hc : q.extracted_content with
        | invalid => rw [hc] at hok; cases hok
        | jarr rs =>
            rw [hc] at hok
            cases rs with
            | nil => cases hok
            | cons y ys => exact ih _ out hok
      · simp only [if_neg hq] at hok ⊢
        exact ih acc out hok

theorem extractLoop_ok_nonempty (results : List FetchResult) :
    ∀ (acc : List Record) (out : List Record), extractLoop acc results = .ok out →
      ∀ r ∈ results, r.success = true →
        ∃ y ys, r.extracted_content = Payload.jarr (y :: ys) := by
  induction results with
  | nil => intro acc out _ r hr; cases hr
  | cons q rest ih =>
      intro acc out hok r hr hsucc
      simp only [extractLoop] at hok
      rcases List.mem_cons.mp hr with hh | hh
      · subst hh
        rw [if_pos hsucc] at hok
        cases hc : r.extracted_content with
        | invalid => rw [hc] at hok; cases hok
        | jarr rs =>
            rw [hc] at hok
            cases rs with
            | nil => cases hok
            | cons y ys => exact ⟨y, ys, rfl⟩
      · by_cases hq : q.success
        · rw [if_pos hq] at hok
          cases hc : q.extracted_content with
          | invalid => rw [hc] at hok; cases hok
          | jarr rs =>
              rw [hc] at hok
              cases rs with
              | nil => cases hok
              | cons y ys => exact ih _ out hok r hh hsucc
        · rw [if_neg hq] at hok
          exact ih acc out hok r hh hsucc

/-! ## Claim theorems for the structured content extractor -/

/-- Claim C2 counterexample: the claim that a non-JSON payload from a
successfully fetched page only skips that URL and lets the batch
complete is false on the code — `extract` has no handler around
`json.loads`, so the parse failure propagates and aborts the whole
batch: with an invalid payload first and a well-formed page second,
`extract` raises instead of returning the second page's records. -/
theorem extract_invalid_payload_aborts :
    extract [⟨true, ("u1"), .invalid⟩,
             ⟨true, ("u2"), .jarr [[(("t"), ("a"))]]⟩] =
      .error ("json.decoder.JSONDecodeError") := rfl

/-- Claim C2 as amended: a failed fetch (`success` false) is skipped
and extraction of the remaining URLs proceeds as if the URL were
absent; but a successful fetch whose payload is not valid JSON makes
`extract` raise, aborting the entire batch. -/
theorem extract_skip_failures_parse_aborts :
    (∀ (pre post : List FetchResult) (r : FetchResult), r.success = false →
      extract (pre ++ r :: post) = extract (pre ++ post)) ∧
    (∀ (results : List FetchResult) (r : FetchResult), r ∈ results →
      r.success = true → r.extracted_content = .invalid →
      ∃ e, extract results = .error e) := by
  constructor
  · intro pre post r hr
    exact extractLoop_skip_failure r hr pre post []
  · intro results r hr hsucc hinv
    exact extractLoop_invalid_errors results [] r hr hsucc hinv

/-- Witness for the C2 amended theorem: a failed fetch of an arbitrary
page contributes nothing, and one invalid successful payload makes the
whole batch error. -/
theorem extract_skip_failures_parse_aborts_witness :
    extract ([] ++ (⟨false, ("u"), .invalid⟩ : FetchResult) :: []) = extract ([] ++ []) ∧
    ∃ e, extract [(⟨true, ("u"), .invalid⟩ : FetchResult)] = .error e := by
  constructor
  · exact extract_skip_failures_parse_aborts.1 [] [] ⟨false, ("u"), .invalid⟩ rfl
  · exact extract_skip_failures_parse_aborts.2 [⟨true, ("u"), .invalid⟩]
      ⟨true, ("u"), .invalid⟩ (by simp) rfl rfl

/-- Claim C3 counterexample: the claim that every record of a parsed
JSON array is stamped with the source URL is false on the code — line
71 of `content_extractor.py` runs `json_data[0]["url"] = result.url`,
stamping only the first record: on a two-record array the second
record's `url` field stays absent. -/
theorem extract_second_record_unstamped :
    extract [⟨true, ("u"), .jarr [[(("a"), ("1"))], [(("b"), ("2"))]]⟩] =
      .ok [[(("a"), ("1")), (("url"), ("u"))], [(("b"), ("2"))]] ∧
    getField [(("b"), ("2"))] ("url") = none := ⟨rfl, rfl⟩

/-- Claim C3 as amended: for a successful fetch whose payload parses as
a non-empty JSON array, `extract` stamps the FIRST record of the array
with the fetched page's URL and appends all of the records (the first
stamped, the rest unchanged) to the output accumulated so far. -/
theorem extract_stamps_first_and_appends :
    ∀ (results : List FetchResult) (out : List Record) (url : String)
      (x : Record) (xs : List Record),
      extract results = .ok out →
      extract (results ++ [⟨true, url, .jarr (x :: xs)⟩]) =
        .ok (out ++ (setField x ("url") url :: xs)) := by
  intro results out url x xs hok
  exact extractLoop_append_success url x xs results [] out hok

/-- Witness for the C3 amended theorem at a one-page batch. -/
theorem extract_stamps_first_and_appends_witness :
    extract ([] ++ [⟨true, ("u"), .jarr [[(("a"), ("1"))], [(("b"), ("2"))]]⟩]) =
      .ok ([] ++ (setField [(("a"), ("1"))] ("url") ("u") :: [[(("b"), ("2"))]])) := by
  exact extract_stamps_first_and_appends [] [] ("u") [(("a"), ("1"))]
    [[(("b"), ("2"))]] rfl

/-- Claim C10: `extract` returns normally only when every successful
fetch's payload is a non-empty JSON array: an `.ok` result forces every
successful result's content to be a non-empty array, and a successful
fetch whose payload parses to the empty array makes the unconditional
stamping of element 0 raise `IndexError`, aborting the batch. -/
theorem extract_ok_requires_nonempty_arrays :
    (∀ (results : List FetchResult) (out : List Record),
      extract results = .ok out → ∀ r ∈ results, r.success = true →
      ∃ y ys, r.extracted_content = Payload.jarr (y :: ys)) ∧
    (∀ (u : String), extract [⟨true, u, .jarr []⟩] =
      .error ("IndexError: list index out of range")) := by
  constructor
  · intro results out hok r hr hsucc
    exact extractLoop_ok_nonempty results [] out hok r hr hsucc
  · intro u; rfl

/-- Witness for the C10 theorem: a returning batch's successful page
indeed carried a non-empty array, and the empty-array page aborts. -/
theorem extract_ok_requires_nonempty_arrays_witness :
    (∃ y ys, (⟨true, ("u"), .jarr [[(("k"), ("v"))]]⟩ : FetchResult).extracted_content =
      Payload.jarr (y :: ys)) ∧
    extract [⟨true, ("w"), .jarr []⟩] =
      .error ("IndexError: list index out of range") := by
  constructor
  · exact extract_ok_requires_nonempty_arrays.1
      [⟨true, ("u"), .jarr [[(("k"), ("v"))]]⟩]
      [[(("k"), ("v")), (("url"), ("u"))]] rfl
      ⟨true, ("u"), .jarr [[(("k"), ("v"))]]⟩ (by simp) rfl
  · exact extract_ok_requires_nonempty_arrays.2 ("w")

/-! ## Lemmas about the scroll exploration strategy -/

theorem exploreScrollLoop_eq (duration : Nat) (ticks : List ScrollTick) :
    ∀ (elapsed : Nat) (acc : List String) (sleeps : Nat),
      exploreScrollLoop duration elapsed acc sleeps ticks =
        (acc ++ (processedTicks duration elapsed ticks).flatMap tickHarvest,
         sleeps + (processedTicks duration elapsed ticks).length) := by
  induction ticks with
  | nil =>
      intro e acc s
      by_cases h : duration ≤ e <;>
        simp [exploreScrollLoop, processedTicks, h]
  | cons t rest ih =>
      intro e acc s
      by_cases h : duration ≤ e
      · simp [exploreScrollLoop, processedTicks, h]
      · have hacc : (match t.result with
            | some r => if r.success then acc ++ extractValidInternalLinks r else acc
            | none => acc) = acc ++ tickHarvest t := by
          cases hr : t.result with
          | none => simp [tickHarvest, hr]
          | some r => by_cases hs : r.success <;> simp [tickHarvest, hr, hs]
        simp only [exploreScrollLoop, processedTicks, if_neg h, hacc,
          List.flatMap_cons, List.length_cons]
        rw [ih]
        simp only [Prod.mk.injEq]
        exact ⟨by rw [List.append_assoc], by omega⟩

/-! ## Claim theorem for the scroll exploration strategy -/

/-- Claim C8: the scroll loop processes exactly the ticks scheduled
while the elapsed wall-clock time is below the configured duration and
then terminates with the accumulated links: an unsuccessful tick (an
absent result or `success=false`) harvests nothing but the loop
continues, a successful tick appends exactly the present, non-empty
internal-link hrefs of its DOM snapshot, and the loop performs the
`_post_scroll_wait` sleep once per tick regardless of success (the
returned counter counts those sleeps). -/
theorem exploreScroll_harvest_and_termination
    (duration : Nat) (ticks : List ScrollTick) :
    exploreScroll duration ticks =
      ((processedTicks duration 0 ticks).flatMap tickHarvest,
       (processedTicks duration 0 ticks).length) := by
  unfold exploreScroll
  rw [exploreScrollLoop_eq]
  simp

/-! ## Lemmas about the deep exploration strategy -/

theorem deepLoop_length_le (adj : String → List String) (flt : String → Bool)
    (maxDepth maxPages : Nat) :
    ∀ (fuel : Nat) (frontier visited : List (String × Nat)),
      visited.length ≤ maxPages →
      (deepLoop adj flt maxDepth maxPages fuel frontier visited).length ≤ maxPages := by
  intro fuel
  induction fuel with
  | zero => intro frontier visited h; exact h
  | succ fuel ih =>
      intro frontier visited h
      cases frontier with
      | nil => exact h
      | cons p rest =>
          obtain ⟨u, d⟩ := p
          simp only [deepLoop]
          by_cases hfull : maxPages ≤ visited.length
          · simp only [if_pos hfull]; exact h
          · simp only [if_neg hfull]
            exact ih _ _ (by simp; omega)

theorem deepLoop_depth_le (adj : String → List String) (flt : String → Bool)
    (maxDepth maxPages : Nat) :
    ∀ (fuel : Nat) (frontier visited : List (String × Nat)),
      (∀ p ∈ frontier, p.2 ≤ maxDepth) → (∀ p ∈ visited, p.2 ≤ maxDepth) →
      ∀ p ∈ deepLoop adj flt maxDepth maxPages fuel frontier visited,
        p.2 ≤ maxDepth := by
  intro fuel
  induction fuel with
  | zero => intro frontier visited _ hv; exact hv
  | succ fuel ih =>
      intro frontier visited hf hv
      cases frontier with
      | nil => exact hv
      | cons q rest =>
          obtain ⟨u, d⟩ := q
          simp only [deepLoop]
          by_cases hfull : maxPages ≤ visited.length
          · simp only [if_pos hfull]; exact hv
          · simp only [if_neg hfull]
            refine ih _ _ ?_ ?_
            · intro p hp
              rcases List.mem_append.mp hp with hp | hp
              · exact hf p (List.mem_cons_of_mem _ hp)
              · by_cases hd : d < maxDepth
                · simp only [if_pos hd, List.mem_map] at hp
                  obtain ⟨v, _, hpv⟩ := hp
                  rw [← hpv]
                  omega
                · simp [if_neg hd] at hp
            · intro p hp
              rcases List.mem_append.mp hp with hp | hp
              · exact hv p hp
              · rw [List.mem_singleton] at hp
                subst hp
                exact hf (u, d) (List.mem_cons_self _ _)

/-! ## Claim theorem for the deep exploration strategy -/

/-- Claim C9: for every link graph, filter, seed and fuel, the deep
exploration visits at most `maxPages` pages, and every visited page
lies at most `maxDepth` hops from the seed along the traversal path
that reached it (the recorded hop count of each visited page is bounded
by `maxDepth`); expansion halts as soon as either bound triggers. -/
theorem deepExplore_respects_bounds (adj : String → List String)
    (flt : String → Bool) (maxDepth maxPages : Nat) (seed : String) (fuel : Nat) :
    (deepExplore adj flt maxDepth maxPages seed fuel).length ≤ maxPages ∧
    ∀ p ∈ deepLoop adj flt maxDepth maxPages fuel [(seed, 0)] [],
      p.2 ≤ maxDepth := by
  constructor
  · unfold deepExplore
    rw [List.length_map]
    exact deepLoop_length_le adj flt maxDepth maxPages fuel [(seed, 0)] [] (by simp)
  · exact deepLoop_depth_le adj flt maxDepth maxPages fuel [(seed, 0)] []
      (by intro p hp; rw [List.mem_singleton] at hp; subst hp; exact Nat.zero_le _)
      (by intro p hp; cases hp)

end Finsight
